import Mathlib

set_option maxHeartbeats 1000000

/-!
Shallow embedding of the mruby code-generator core
(`mrbgems/mruby-compiler/core/codegen.c`) and proofs about it.

The instruction stream, literal pool, symbol tables, the simulated
register stack pointer `sp`, the loop stack, the peephole optimizer
(`genop_peep`), the jump patcher (`dispatch`) and the AST lowerer
(`codegen`, restricted to a representative subset of node kinds) are
translated from the C source.  A `codegen_error` (C long-jump) is an
`Except.error`; `raise_error` — which only *emits* an `OP_ERR`
instruction — is a plain state transformer, exactly as in the source.
-/

deriving instance DecidableEq for Except

/-- Modelled from the spec: the opcode header (`mruby/opcode.h`) is not
part of the sources; spec §3/§6 fix `sBx` as a signed 16-bit field, so
`MAXARG_sBx = 32767`. -/
def MAXARG_sBx : Int := 32767

/-- Modelled from the spec: `RETURN` argument kind `R_NORMAL` (opcode
header not in the sources; spec §4.6). -/
def OP_R_NORMAL : Int := 0

/-- Modelled from the spec: `RETURN` argument kind `R_BREAK`. -/
def OP_R_BREAK : Int := 1

/-- Modelled from the spec: `RETURN` argument kind `R_RETURN`. -/
def OP_R_RETURN : Int := 2

/-- The opcodes that appear in the code-generator core (spec §3). -/
inductive Op where
  | MOVE | LOADI | LOADL | LOADSYM | LOADNIL | LOADSELF | LOADT | LOADF
  | GETGLOBAL | SETGLOBAL | GETSPECIAL | GETIV | SETIV | GETCV | SETCV
  | GETCONST | SETCONST | GETMCNST | SETMCNST | GETUPVAR | SETUPVAR
  | JMP | JMPIF | JMPNOT | ONERR | RESCUE | POPERR | RAISE | EPUSH | EPOP
  | SEND | SENDB | SUPER | ARGARY | ENTER | RETURN | BLKPUSH
  | ADD | ADDI | SUB | SUBI | MUL | DIV | EQ | LT | LE | GT | GE
  | ARRAY | ARYCAT | ARYPUSH | AREF | APOST | STRING | STRCAT | HASH
  | LAMBDA | RANGE | OCLASS | CLASS | MODULE | EXEC | METHOD | SCLASS | TCLASS
  | ERR | STOP
deriving DecidableEq, Repr

/-- A decoded instruction.  The 32-bit packing of `mrb_code` is abstracted
into a record: `a`, `b`, `c` are the `A`/`B`/`C` fields and `bx` the 16-bit
`Bx` field.  As in the C header, the signed `sBx` view is the `Bx` field
shifted by `MAXARG_sBx` (`GETARG_sBx(i) = GETARG_Bx(i) - MAXARG_sBx`), so
the `Bx`/`sBx` aliasing of the source is preserved. -/
structure Instr where
  op : Op
  a : Int := 0
  b : Int := 0
  c : Int := 0
  bx : Int := 0
deriving DecidableEq, Repr

instance : Inhabited Instr := ⟨{ op := Op.MOVE }⟩

def GET_OPCODE (i : Instr) : Op := i.op

def GETARG_A (i : Instr) : Int := i.a

def GETARG_B (i : Instr) : Int := i.b

def GETARG_C (i : Instr) : Int := i.c

def GETARG_Bx (i : Instr) : Int := i.bx

def GETARG_sBx (i : Instr) : Int := i.bx - MAXARG_sBx

def MKOP_A (op : Op) (a : Int) : Instr := { op := op, a := a }

def MKOP_AB (op : Op) (a b : Int) : Instr := { op := op, a := a, b := b }

def MKOP_ABC (op : Op) (a b c : Int) : Instr := { op := op, a := a, b := b, c := c }

def MKOP_ABx (op : Op) (a bx : Int) : Instr := { op := op, a := a, bx := bx }

def MKOP_Bx (op : Op) (bx : Int) : Instr := MKOP_ABx op 0 bx

def MKOP_AsBx (op : Op) (a sbx : Int) : Instr := MKOP_ABx op a (sbx + MAXARG_sBx)

def MKOP_sBx (op : Op) (sbx : Int) : Instr := MKOP_AsBx op 0 sbx

/-- A literal-pool value (`mrb_value` restricted to the tags the pool
holds: string, float, fixnum).  Floats are modelled exactly over `ℚ`;
the code generator only compares them for equality. -/
inductive Value where
  | fixnum (i : Int)
  | float (f : Rat)
  | str (s : String)
deriving DecidableEq, Repr

/-- `enum looptype` from the source. -/
inductive LoopType where
  | LOOP_NORMAL | LOOP_BLOCK | LOOP_FOR | LOOP_BEGIN | LOOP_RESCUE
deriving DecidableEq, Repr

/-- `struct loopinfo` (the `prev` chaining is the list structure of
`CScope.loop`). -/
structure LoopInfo where
  type : LoopType
  pc1 : Int := 0
  pc2 : Int := 0
  pc3 : Int := 0
  acc : Int := 0
  ensure_level : Int := 0
deriving DecidableEq, Repr

instance : Inhabited LoopInfo := ⟨{ type := LoopType.LOOP_NORMAL }⟩

/-- `codegen_scope`: the compilation state of one scope.  `pc` is always
the length of `iseq`, so it is not stored separately.  The fields that
only concern debug output (`lineno`, filenames, the parallel `lines`
array) are omitted; `pool`, `syms` and `rlen` stand for the attached
irep's `pool`/`plen`, `syms`/`slen` and `rlen`. -/
structure CScope where
  noOptimize : Bool := false
  sp : Int := 0
  nlocals : Int := 0
  nregs : Int := 0
  lastlabel : Int := 0
  iseq : List Instr := []
  pool : List Value := []
  syms : List Nat := []
  rlen : Nat := 0
  loop : List LoopInfo := []
  ensure_level : Int := 0
deriving DecidableEq, Repr

/-- `genop` on the raw instruction list: append, return the old `pc`. -/
def genop_go (iseq : List Instr) (i : Instr) : List Instr × Int :=
  (iseq ++ [i], (iseq.length : Int))

/-- `genop`: append an instruction, returning its position. -/
def genop (s : CScope) (i : Instr) : CScope × Int :=
  let (l, r) := genop_go s.iseq i
  ({ s with iseq := l }, r)

/-- `genop` discarding the returned position. -/
def genop1 (s : CScope) (i : Instr) : CScope :=
  (genop s i).1

/-- `new_label`: remember the current `pc` as a jump-target label. -/
def new_label (s : CScope) : CScope × Int :=
  ({ s with lastlabel := (s.iseq.length : Int) }, (s.iseq.length : Int))

/-- `push_` (the `push()` macro): step the simulated stack pointer,
raising the "too complex" compile error past 511, and keep the
high-water mark `nregs` up to date (`nregs_update`). -/
def push_ (s : CScope) : Except String CScope :=
  if s.sp > 511 then .error "too complex expression"
  else
    let sp := s.sp + 1
    .ok { s with sp := sp, nregs := if sp > s.nregs then sp else s.nregs }

/-- `push_n_` (the `push_n(n)` macro). -/
def push_n_ (s : CScope) (n : Nat) : Except String CScope :=
  if s.sp + n > 511 then .error "too complex expression"
  else
    let sp := s.sp + n
    .ok { s with sp := sp, nregs := if sp > s.nregs then sp else s.nregs }

/-- The `pop()` macro. -/
def pop_ (s : CScope) : CScope := { s with sp := s.sp - 1 }

/-- The `pop_n(n)` macro. -/
def pop_n (s : CScope) (n : Nat) : CScope := { s with sp := s.sp - n }

/-- The `cursp()` macro. -/
def cursp (s : CScope) : Int := s.sp

/-- Literal-pool matching in `new_lit`: entries are compared only against
pool entries of the same tag (strings by bytes, floats by numeric value,
fixnums by integer value). -/
def lit_match : Value → Value → Bool
  | Value.str a, Value.str b => a = b
  | Value.float a, Value.float b => a = b
  | Value.fixnum a, Value.fixnum b => a = b
  | _, _ => false

/-- `new_lit` on the raw pool: linear lookup, append on miss. -/
def new_lit_pool (pool : List Value) (v : Value) : List Value × Nat :=
  match pool.findIdx? (fun w => lit_match w v) with
  | some i => (pool, i)
  | none => (pool ++ [v], pool.length)

/-- `new_lit`: intern a literal in the scope's pool. -/
def new_lit (s : CScope) (v : Value) : CScope × Nat :=
  let (p, i) := new_lit_pool s.pool v
  ({ s with pool := p }, i)

/-- The scan loop of `new_msym`: walk the (at most 256) leading symbol
slots, stopping at the requested symbol or at a zero slot; returns the
index where the loop stopped. -/
def msym_scan (l : List Nat) (sym : Nat) (i : Nat) : Nat :=
  match l with
  | [] => i
  | x :: rest => if x = sym ∨ x = 0 then i else msym_scan rest sym (i + 1)

/-- `new_msym` on the raw symbol list: search the first
`min slen 256` slots; on a hit return the index, on a zero slot
overwrite it, at the end append; a full table of 256 foreign symbols is
the "too many symbols" compile error. -/
def new_msym_tbl (syms : List Nat) (sym : Nat) : Except String (List Nat × Nat) :=
  let i := msym_scan (syms.take 256) sym 0
  if i = 256 then .error "too many symbols (max 256)"
  else if i < syms.length then
    if syms.getD i 0 = sym then .ok (syms, i)
    else .ok (syms.set i sym, i)
  else .ok (syms ++ [sym], i)

/-- `new_msym`: intern a method symbol in the scope's table. -/
def new_msym (s : CScope) (sym : Nat) : Except String (CScope × Nat) :=
  (new_msym_tbl s.syms sym).map (fun p => ({ s with syms := p.1 }, p.2))

/-- `new_sym` on the raw symbol list: linear search of the whole table;
on a miss, densify to a reserved 256-slot prefix when the length is in
`(125, 256)`, then append at the tail. -/
def new_sym_tbl (syms : List Nat) (sym : Nat) : List Nat × Nat :=
  match syms.findIdx? (fun x => x = sym) with
  | some i => (syms, i)
  | none =>
    let syms :=
      if 125 < syms.length ∧ syms.length < 256 then
        syms ++ List.replicate (256 - syms.length) 0
      else syms
    (syms ++ [sym], syms.length)

/-- `new_sym`: intern a general symbol in the scope's table. -/
def new_sym (s : CScope) (sym : Nat) : CScope × Nat :=
  let (t, i) := new_sym_tbl s.syms sym
  ({ s with syms := t }, i)

/-- `raise_error`: intern the message string and emit `OP_ERR`.  Note
that unlike `codegen_error` this does *not* abort the compile. -/
def raise_error (s : CScope) (msg : String) : CScope :=
  let (s, idx) := new_lit s (Value.str msg)
  genop1 s (MKOP_ABx Op.ERR 1 (idx : Int))

/-- `mrb_string_p(v) && RSTRING_LEN(v) == 0` from the `OP_STRCAT` rule. -/
def empty_pool_str (v : Value) : Bool :=
  match v with
  | Value.str sv => sv.isEmpty
  | _ => false

/-- The `OP_STRCAT` elision checks of `genop_peep` (shared by the
`OP_ADD`/`OP_SUB` case, which falls through into them in the source):
drop the previous instruction when it pushed an empty pooled string or a
nil onto the concatenation source register; otherwise plain-emit. -/
def peep_strcat (pool : List Value) (iseq : List Instr) (i i0 : Instr) :
    List Instr × Int :=
  if i0.op = Op.STRING ∧
      empty_pool_str (pool.getD (GETARG_Bx i0).toNat (Value.fixnum 0)) then
    (iseq.dropLast, 0)
  else if i0.op = Op.LOADNIL ∧ GETARG_B i = GETARG_A i0 then
    (iseq.dropLast, 0)
  else genop_go iseq i

/-- `genop_peep` on the raw instruction list.  `genop_peep` never writes
`sp`, `lastlabel`, the pool or the symbol tables, so the worker carries
them read-only; `pc` is the list length.  Every rule is transcribed from
the source's `switch`: rewrites replace the last instruction in place,
elisions drop it, and the fall-through is a plain `genop`.  The `fuel`
argument only bounds the recursion depth so that the definition is
structural (and hence kernel-computable); every recursive call in the
source shortens the stream, so any `fuel` above the stream length is
enough and the fuel-exhaustion branch is unreachable from the wrapper
below. -/
def genop_peep_go (noOpt : Bool) (lastlabel : Int) (nlocals : Int)
    (pool : List Value) : Nat → List Instr → Instr → Bool → List Instr × Int
  | 0, iseq, i, _ => genop_go iseq i
  | fuel + 1, iseq, i, val =>
  if ¬noOpt ∧ lastlabel ≠ (iseq.length : Int) ∧ 0 < iseq.length then
    let i0 := iseq.getD (iseq.length - 1) default
    let c1 := GET_OPCODE i
    let c0 := GET_OPCODE i0
    match c1 with
    | Op.MOVE =>
      if GETARG_A i = GETARG_B i then (iseq, 0)
      else if val then genop_go iseq i
      else
        match c0 with
        | Op.MOVE =>
          let l1 := if GETARG_A i = GETARG_A i0 then iseq.dropLast else iseq
          if GETARG_B i = GETARG_A i0 ∧ GETARG_A i = GETARG_B i0 then (l1, 0)
          else if GETARG_B i = GETARG_A i0 ∧ GETARG_A i0 ≥ nlocals then
            genop_peep_go noOpt lastlabel nlocals pool fuel l1.dropLast
              (MKOP_AB Op.MOVE (GETARG_A i) (GETARG_B i0)) val
          else genop_go l1 i
        | Op.LOADI =>
          if GETARG_B i = GETARG_A i0 ∧ GETARG_A i0 ≥ nlocals then
            (iseq.dropLast ++ [MKOP_AsBx Op.LOADI (GETARG_A i) (GETARG_sBx i0)], 0)
          else genop_go iseq i
        | Op.ARRAY | Op.HASH | Op.RANGE | Op.AREF | Op.GETUPVAR =>
          if GETARG_B i = GETARG_A i0 ∧ GETARG_A i0 ≥ nlocals then
            (iseq.dropLast ++ [MKOP_ABC c0 (GETARG_A i) (GETARG_B i0) (GETARG_C i0)], 0)
          else genop_go iseq i
        | Op.LOADSYM | Op.GETGLOBAL | Op.GETIV | Op.GETCV | Op.GETCONST
        | Op.GETSPECIAL | Op.LOADL | Op.STRING =>
          if GETARG_B i = GETARG_A i0 ∧ GETARG_A i0 ≥ nlocals then
            (iseq.dropLast ++ [MKOP_ABx c0 (GETARG_A i) (GETARG_Bx i0)], 0)
          else genop_go iseq i
        | Op.SCLASS =>
          if GETARG_B i = GETARG_A i0 ∧ GETARG_A i0 ≥ nlocals then
            (iseq.dropLast ++ [MKOP_AB c0 (GETARG_A i) (GETARG_B i0)], 0)
          else genop_go iseq i
        | Op.LOADNIL | Op.LOADSELF | Op.LOADT | Op.LOADF | Op.OCLASS =>
          if GETARG_B i = GETARG_A i0 ∧ GETARG_A i0 ≥ nlocals then
            (iseq.dropLast ++ [MKOP_A c0 (GETARG_A i)], 0)
          else genop_go iseq i
        | _ => genop_go iseq i
    | Op.SETIV | Op.SETCV | Op.SETCONST | Op.SETMCNST | Op.SETGLOBAL =>
      if val then genop_go iseq i
      else if c0 = Op.MOVE ∧ GETARG_A i = GETARG_A i0 then
        (iseq.dropLast ++ [MKOP_ABx c1 (GETARG_B i0) (GETARG_Bx i)], 0)
      else genop_go iseq i
    | Op.SETUPVAR =>
      if val then genop_go iseq i
      else if c0 = Op.MOVE ∧ GETARG_A i = GETARG_A i0 then
        (iseq.dropLast ++ [MKOP_ABC c1 (GETARG_B i0) (GETARG_B i) (GETARG_C i)], 0)
      else genop_go iseq i
    | Op.EPOP =>
      if c0 = Op.EPOP then
        (iseq.dropLast ++ [MKOP_A Op.EPOP (GETARG_A i0 + GETARG_A i)], 0)
      else genop_go iseq i
    | Op.POPERR =>
      if c0 = Op.POPERR then
        (iseq.dropLast ++ [MKOP_A Op.POPERR (GETARG_A i0 + GETARG_A i)], 0)
      else genop_go iseq i
    | Op.RETURN =>
      match c0 with
      | Op.RETURN => (iseq, 0)
      | Op.MOVE =>
        if GETARG_A i0 ≥ nlocals then
          (iseq.dropLast ++ [MKOP_AB Op.RETURN (GETARG_B i0) OP_R_NORMAL], 0)
        else genop_go iseq i
      | Op.SETIV | Op.SETCV | Op.SETCONST | Op.SETMCNST | Op.SETUPVAR
      | Op.SETGLOBAL =>
        let l2 := (genop_peep_go noOpt lastlabel nlocals pool fuel iseq.dropLast i0 false).1
        let i0b := l2.getD (l2.length - 1) default
        genop_go l2 (MKOP_AB Op.RETURN (GETARG_A i0b) OP_R_NORMAL)
      | _ => genop_go iseq i
    | Op.ADD | Op.SUB =>
      if c0 = Op.LOADI then
        let cc := if c1 = Op.SUB then -(GETARG_sBx i0) else GETARG_sBx i0
        if cc > 127 ∨ cc < -127 then genop_go iseq i
        else if 0 ≤ cc then
          (iseq.dropLast ++ [MKOP_ABC Op.ADDI (GETARG_A i) (GETARG_B i) cc], 0)
        else
          (iseq.dropLast ++ [MKOP_ABC Op.SUBI (GETARG_A i) (GETARG_B i) (-cc)], 0)
      else peep_strcat pool iseq i i0
    | Op.STRCAT => peep_strcat pool iseq i i0
    | Op.JMPIF | Op.JMPNOT =>
      if c0 = Op.MOVE ∧ GETARG_A i = GETARG_A i0 then
        (iseq.dropLast ++ [MKOP_AsBx c1 (GETARG_B i0) (GETARG_sBx i)],
         (iseq.length : Int) - 1)
      else genop_go iseq i
    | _ => genop_go iseq i
  else genop_go iseq i

/-- `genop_peep` on the scope: peephole-aware emit.  Only `iseq`
changes; the returned `Int` is `0` or an instruction position.  The
worker's fuel is one more than the stream length, which every recursive
call of the source stays under. -/
def genop_peep (s : CScope) (i : Instr) (val : Bool) : CScope × Int :=
  let (l, r) := genop_peep_go s.noOptimize s.lastlabel s.nlocals s.pool
    (s.iseq.length + 1) s.iseq i val
  ({ s with iseq := l }, r)

/-- `genop_peep` discarding the returned position. -/
def genop_peep1 (s : CScope) (i : Instr) (val : Bool) : CScope :=
  (genop_peep s i val).1

/-- `dispatch`: patch the jump instruction at `pc` so that it reaches
the current end of the stream, and record the target as a label.  On a
non-jump opcode the source prints a bug diagnostic and exits; this is
the error case. -/
def dispatch (s : CScope) (pc : Nat) : Except String CScope :=
  let diff : Int := (s.iseq.length : Int) - (pc : Int)
  let i := s.iseq.getD pc default
  let c := GET_OPCODE i
  let s1 := { s with lastlabel := (s.iseq.length : Int) }
  match c with
  | Op.JMP | Op.JMPIF | Op.JMPNOT | Op.ONERR =>
    .ok { s1 with iseq := s1.iseq.set pc (MKOP_AsBx c (GETARG_A i) diff) }
  | _ => .error "bug: dispatch on non JMP op"

/-- `mrb_digitmap` (from the runtime's numeric support, fixed by the
spec's "base-aware parse"). -/
def mrb_digitmap : List Char := "0123456789abcdefghijklmnopqrstuvwxyz".toList

/-- One digit lookup of the `readint` loops: the first index `n < base`
with `mrb_digitmap[n] = tolower(c)`. -/
def digit_lookup (base : Nat) (c : Char) : Option Nat :=
  (mrb_digitmap.take base).findIdx? (fun d => d = c.toLower)

/-- Modelled from the spec: `MRB_INT_MAX` for the default 64-bit
`mrb_int` ("the largest representable fixed-integer", spec §4.9). -/
def MRB_INT_MAX : Int := 2 ^ 63 - 1

/-- Modelled from the spec: `MRB_INT_MIN` for 64-bit `mrb_int`. -/
def MRB_INT_MIN : Int := -(2 ^ 63)

/-- The accumulation loop of `readint_mrb_int`.  C division truncates
toward zero, hence `Int.tdiv`.  Returns the parsed value and the
overflow flag; a non-digit character is the "malformed readint input"
compile error. -/
def readint_loop (base : Nat) (neg : Bool) (result : Int) :
    List Char → Except String (Int × Bool)
  | [] => .ok (result, false)
  | c :: rest =>
    match digit_lookup base c with
    | none => .error "malformed readint input"
    | some n =>
      if neg then
        if Int.tdiv (MRB_INT_MIN + n) base > result then .ok (0, true)
        else readint_loop base neg (result * base - n) rest
      else
        if Int.tdiv (MRB_INT_MAX - n) base < result then .ok (0, true)
        else readint_loop base neg (result * base + n) rest

/-- `readint_mrb_int`: base-aware parse of a digit string into `mrb_int`,
negating digit-by-digit when `neg`, with overflow detection.  A single
leading `+` is skipped as in the source. -/
def readint_mrb_int (p : List Char) (base : Nat) (neg : Bool) :
    Except String (Int × Bool) :=
  let p := match p with
           | '+' :: rest => rest
           | _ => p
  readint_loop base neg 0 p

/-- The accumulation loop of `readint_float`.  The C source accumulates
in a `double`; the model accumulates the same recurrence exactly over
`ℚ` (the claims only exercise this on in-range integers). -/
def readint_float_loop (base : Nat) (f : Rat) :
    List Char → Except String Rat
  | [] => .ok f
  | c :: rest =>
    match digit_lookup base c with
    | none => .error "malformed readint input"
    | some n => readint_float_loop base (f * base + n) rest

/-- `readint_float`: the fallback parse used on fixnum overflow. -/
def readint_float (p : List Char) (base : Nat) : Except String Rat :=
  let p := match p with
           | '+' :: rest => rest
           | _ => p
  readint_float_loop base 0 p

/-- Interned symbol ids for the identifiers the modelled subset uses
(symbols are opaque nonzero integers supplied by the runtime's
`intern`). -/
def sym_update : Nat := 1

/-- Interned symbol id for `-`. -/
def sym_minus : Nat := 2

/-- The AST node kinds modelled here: a representative subset of the
dispatcher's cases (literals, `BEGIN` sequences, hash literals,
`break`/`redo`/`retry`, nested `SCOPE`s, `defined?`, `postexe`,
negation).  As in the parser's cons-cell AST, child lists are ordered
and `break`'s argument is optional. -/
inductive Node where
  | nInt (digits : List Char) (base : Nat)
  | nStr (sval : String)
  | nNil
  | nTrue
  | nFalse
  | nSelf
  | nBegin (children : List Node)
  | nRedo
  | nRetry
  | nScope (lv : List Nat) (body : Node)
  | nDefined (operand : Node)
  | nHash (pairs : List (Node × Node))
  | nBreak (arg : Option Node)
  | nPostexe (body : Node)
  | nNegate (operand : Node)

/-- `scope_new` for a non-root scope: fresh buffers, `sp` and `nlocals`
set to `node_len(lv) + 1` (the locals plus `self`), `nregs` left at
zero. -/
def scope_new_model (parent : CScope) (lv : List Nat) : CScope :=
  { noOptimize := parent.noOptimize,
    sp := (lv.length : Int) + 1,
    nlocals := (lv.length : Int) + 1 }

/-- The first walk of `loop_break`: emit a `POPERR 1` (through the
peephole) for every leading `LOOP_BEGIN` frame; returns the state and
the index of the first non-`LOOP_BEGIN` frame. -/
def walkBegin (s : CScope) (l : List LoopInfo) (k : Nat) : CScope × Nat :=
  match l with
  | [] => (s, k)
  | f :: rest =>
    if f.type = LoopType.LOOP_BEGIN then
      walkBegin (genop_peep1 s (MKOP_A Op.POPERR 1) false) rest (k + 1)
    else (s, k)

/-- The second walk of `loop_break`: skip `LOOP_RESCUE` frames. -/
def walkRescue (l : List LoopInfo) (k : Nat) : Nat :=
  match l with
  | [] => k
  | f :: rest =>
    if f.type = LoopType.LOOP_RESCUE then walkRescue rest (k + 1) else k

/-- The search loop of `NODE_RETRY`: walk outward to the nearest
`LOOP_RESCUE` frame, counting the `LOOP_BEGIN` frames passed on the
way. -/
def retryFind : List LoopInfo → Nat → Nat × Option LoopInfo
  | [], n => (n, none)
  | f :: rest, n =>
    if f.type = LoopType.LOOP_RESCUE then (n, some f)
    else retryFind rest (if f.type = LoopType.LOOP_BEGIN then n + 1 else n)

/-- `NODE_RETRY`'s `while (n--) genop_peep(POPERR 1)` loop. -/
def emitPoperrs (s : CScope) : Nat → CScope
  | 0 => s
  | n + 1 => emitPoperrs (genop_peep1 s (MKOP_A Op.POPERR 1) false) n

mutual

/-- `codegen(scope, tree, val)` restricted to the modelled node subset.
`NULL` trees load nil in `VAL` mode; every case is transcribed from the
corresponding `switch` arm of the source (`NODE_BEGIN`, `NODE_INT`,
`NODE_STR`, the nullary literals, `NODE_REDO`, `NODE_RETRY`,
`NODE_SCOPE` via `scope_body`, `NODE_DEFINED`, `NODE_HASH`,
`NODE_BREAK`, `NODE_POSTEXE`, `NODE_NEGATE`).  The `fuel` argument
only bounds the recursion depth so that the mutual group is structural
(and kernel-computable); the source recursion is on subterms of the
AST, so any fuel at least the AST size is enough, and every theorem
below conditioned on an `.ok` result holds for every fuel. -/
def codegen : Nat → Option Node → Bool → CScope → Except String CScope
  | 0, _, _, _ => .error "out of fuel"
  | fuel + 1, t, val, s =>
  match t with
  | none =>
    if val then push_ (genop1 s (MKOP_A Op.LOADNIL (cursp s)))
    else .ok s
  | some (Node.nBegin children) =>
    if val ∧ children.isEmpty then push_ (genop1 s (MKOP_A Op.LOADNIL (cursp s)))
    else codegenList fuel children val s
  | some (Node.nInt p base) =>
    if val then
      match readint_mrb_int p base false with
      | .error e => .error e
      | .ok (i, overflow) =>
        if overflow then
          match readint_float p base with
          | .error e => .error e
          | .ok f =>
            let (s, off) := new_lit s (Value.float f)
            push_ (genop1 s (MKOP_ABx Op.LOADL (cursp s) (off : Int)))
        else
          if i < MAXARG_sBx ∧ i > -MAXARG_sBx then
            push_ (genop1 s (MKOP_AsBx Op.LOADI (cursp s) i))
          else
            let (s, off) := new_lit s (Value.fixnum i)
            push_ (genop1 s (MKOP_ABx Op.LOADL (cursp s) (off : Int)))
    else .ok s
  | some (Node.nStr sv) =>
    if val then
      let (s, off) := new_lit s (Value.str sv)
      push_ (genop1 s (MKOP_ABx Op.STRING (cursp s) (off : Int)))
    else .ok s
  | some Node.nNil =>
    if val then push_ (genop1 s (MKOP_A Op.LOADNIL (cursp s)))
    else .ok s
  | some Node.nTrue =>
    if val then push_ (genop1 s (MKOP_A Op.LOADT (cursp s)))
    else .ok s
  | some Node.nFalse =>
    if val then push_ (genop1 s (MKOP_A Op.LOADF (cursp s)))
    else .ok s
  | some Node.nSelf =>
    if val then push_ (genop1 s (MKOP_A Op.LOADSELF (cursp s)))
    else .ok s
  | some Node.nRedo =>
    match s.loop with
    | [] => .ok (raise_error s "unexpected redo")
    | lp :: _ =>
      let s := if s.ensure_level > lp.ensure_level then
                 genop_peep1 s (MKOP_A Op.EPOP (s.ensure_level - lp.ensure_level)) false
               else s
      .ok (genop1 s (MKOP_sBx Op.JMP (lp.pc2 - (s.iseq.length : Int))))
  | some Node.nRetry =>
    match s.loop with
    | [] => .ok (raise_error s "unexpected retry")
    | _ :: _ =>
      match retryFind s.loop 0 with
      | (_, none) => .ok (raise_error s "unexpected retry")
      | (n, some lp) =>
        let s := emitPoperrs s n
        let s := if s.ensure_level > lp.ensure_level then
                   genop_peep1 s (MKOP_A Op.EPOP (s.ensure_level - lp.ensure_level)) false
                 else s
        .ok (genop1 s (MKOP_sBx Op.JMP (lp.pc1 - (s.iseq.length : Int))))
  | some (Node.nScope lv body) => do
    let child ← codegen fuel (some body) true (scope_new_model s lv)
    let _fin := genop1 child (MKOP_AB Op.RETURN 0 OP_R_NORMAL)
    .ok { s with rlen := s.rlen + 1 }
  | some (Node.nDefined operand) => codegen fuel (some operand) true s
  | some (Node.nHash pairs) => codegenHash fuel pairs 0 false val s
  | some (Node.nBreak arg) => do
    let s ← loop_break fuel arg s
    if val then push_ s else .ok s
  | some (Node.nPostexe body) => codegen fuel (some body) false s
  | some (Node.nNegate inner) =>
    match inner with
    | Node.nInt p base =>
      match readint_mrb_int p base true with
      | .error e => .error e
      | .ok (i, overflow) =>
        if overflow then
          match readint_float p base with
          | .error e => .error e
          | .ok f =>
            let (s, off) := new_lit s (Value.float (-f))
            push_ (genop1 s (MKOP_ABx Op.LOADL (cursp s) (off : Int)))
        else
          if i < MAXARG_sBx ∧ i > -MAXARG_sBx then
            push_ (genop1 s (MKOP_AsBx Op.LOADI (cursp s) i))
          else
            let (s, off) := new_lit s (Value.fixnum i)
            push_ (genop1 s (MKOP_ABx Op.LOADL (cursp s) (off : Int)))
    | other => do
      let (s, symidx) ← new_msym s sym_minus
      let s := genop1 s (MKOP_ABx Op.LOADI (cursp s) 0)
      let s ← push_ s
      let s ← codegen fuel (some other) true s
      let s := pop_ (pop_ s)
      .ok (genop1 s (MKOP_ABC Op.SUB (cursp s) (symidx : Int) 2))

/-- The `NODE_BEGIN` child loop: every child but the last is lowered in
`NOVAL` mode, the last with the caller's mode. -/
def codegenList : Nat → List Node → Bool → CScope → Except String CScope
  | 0, _, _, _ => .error "out of fuel"
  | _ + 1, [], _, s => .ok s
  | fuel + 1, [c], val, s => codegen fuel (some c) val s
  | fuel + 1, c :: rest, val, s => do
    let s ← codegen fuel (some c) false s
    codegenList fuel rest val s

/-- The `VAL`-mode emission block of `NODE_HASH` (written out twice in
the source, inside the loop and after it): pop the `len` lowered pairs,
emit `OP_HASH`, merge into the previous segment with a `__update` send
when `update` is set, and push the result. -/
def hash_flush (s : CScope) (len : Nat) (update : Bool) :
    Except String CScope :=
  let s := pop_n s (len * 2)
  let s := genop1 s (MKOP_ABC Op.HASH (cursp s) (cursp s) (len : Int))
  do
    let s ← if update then do
        let s := pop_ s
        let (s, idx) ← new_msym s sym_update
        pure (genop1 s (MKOP_ABC Op.SEND (cursp s) (idx : Int) 1))
      else pure s
    push_ s

/-- The `NODE_HASH` loop: lower each key/value pair with the caller's
mode; in `VAL` mode, flush with an `OP_HASH` every 126 pairs, merging
flushed segments with a `__update` send, and emit the final
`OP_HASH` (plus merge) for the remaining pairs. -/
def codegenHash : Nat → List (Node × Node) → Nat → Bool → Bool → CScope →
    Except String CScope
  | 0, _, _, _, _, _ => .error "out of fuel"
  | fuel + 1, pairs, len, update, val, s =>
  match pairs with
  | [] =>
    if val then hash_flush s len update
    else .ok s
  | (k, v) :: rest => do
    let s ← codegen fuel (some k) val s
    let s ← codegen fuel (some v) val s
    let len := len + 1
    if val ∧ len = 126 then do
      let s ← hash_flush s len update
      codegenHash fuel rest 0 true val s
    else
      codegenHash fuel rest len update val s

/-- `loop_break`: lower the optional break value, walk the loop stack
(emitting a `POPERR 1` per `LOOP_BEGIN` frame and skipping
`LOOP_RESCUE` frames), and either chain a `JMP` onto the target
`LOOP_NORMAL` frame's break list, emit `RETURN R_BREAK` for a
block-like frame, or — when no frame remains — emit a runtime
`OP_ERR` via `raise_error` and keep compiling. -/
def loop_break : Nat → Option Node → CScope → Except String CScope
  | 0, _, _ => .error "out of fuel"
  | fuel + 1, tree, s =>
  match s.loop with
  | [] => do
    let s ← codegen fuel tree false s
    .ok (raise_error s "unexpected break")
  | _ :: _ => do
    let s ← match tree with
            | some arg => do
              let s ← codegen fuel (some arg) true s
              pure (pop_ s)
            | none => pure s
    let (s, k) := walkBegin s s.loop 0
    let k := walkRescue (s.loop.drop k) k
    match s.loop.get? k with
    | none => .ok (raise_error s "unexpected break")
    | some target =>
      if target.type = LoopType.LOOP_NORMAL then
        let head := s.loop.headI
        let s := if s.ensure_level > head.ensure_level then
                   genop_peep1 s (MKOP_A Op.EPOP (s.ensure_level - head.ensure_level)) false
                 else s
        let s := if tree.isSome then
                   genop_peep1 s (MKOP_AB Op.MOVE target.acc (cursp s)) false
                 else s
        let (s, tmp) := genop s (MKOP_sBx Op.JMP target.pc3)
        .ok { s with loop := s.loop.set k { target with pc3 := tmp } }
      else
        .ok (genop1 s (MKOP_AB Op.RETURN (cursp s) OP_R_BREAK))

end

/-- The four register-stack primitives of the source (`push()`,
`push_n(n)`, `pop()`, `pop_n(n)`), as trace events for reasoning about
a scope's whole compilation. -/
inductive StackOp where
  | push
  | pushN (n : Nat)
  | pop
  | popN (n : Nat)
deriving DecidableEq, Repr

/-- Apply one stack primitive (the pushes can raise the "too complex"
compile error, the pops are unchecked, exactly as in the source). -/
def applyStackOp (s : CScope) : StackOp → Except String CScope
  | StackOp.push => push_ s
  | StackOp.pushN n => push_n_ s n
  | StackOp.pop => .ok (pop_ s)
  | StackOp.popN n => .ok (pop_n s n)

/-- Run a trace of stack primitives. -/
def applyStackOps (s : CScope) : List StackOp → Except String CScope
  | [] => .ok s
  | op :: ops => do applyStackOps (← applyStackOp s op) ops

/-- The `sp` value after one primitive (pure arithmetic shadow). -/
def spAfter (sp : Int) : StackOp → Int
  | StackOp.push => sp + 1
  | StackOp.pushN n => sp + n
  | StackOp.pop => sp - 1
  | StackOp.popN n => sp - n

/-- The maximum `sp` value observed along a trace, the initial value
included. -/
def maxSpObserved (sp : Int) : List StackOp → Int
  | [] => sp
  | op :: ops => max sp (maxSpObserved (spAfter sp op) ops)

/-- The high-water mark that the pushes of a trace actually record:
the maximum of `sp` immediately after each `push`/`push_n` (and `0`
when the trace performs none). -/
def pushHighWater (sp : Int) : List StackOp → Int
  | [] => 0
  | StackOp.push :: ops => max (sp + 1) (pushHighWater (sp + 1) ops)
  | StackOp.pushN n :: ops => max (sp + n) (pushHighWater (sp + n) ops)
  | StackOp.pop :: ops => pushHighWater (sp - 1) ops
  | StackOp.popN n :: ops => pushHighWater (sp - n) ops

/-- `scope_finish` records the scope's `nregs` into the produced irep
(`irep->nregs = s->nregs`). -/
def scope_finish_nregs (s : CScope) : Int := s.nregs

theorem exc_bind_ok {α β : Type} (a : α) (f : α → Except String β) :
    (Except.ok a >>= f) = f a := rfl

theorem exc_bind_err {α β : Type} (e : String) (f : α → Except String β) :
    ((Except.error e : Except String α) >>= f) = Except.error e := rfl

/-- Claim C6 (counterexample): a freshly opened scope with one local
starts at `sp = 2` (local plus `self`) but `nregs = 0`; compiling an
empty body performs no pushes, so `scope_finish` records `nregs = 0`
even though the maximum `sp` observed is `2`. -/
theorem c6_counterexample :
    applyStackOps (scope_new_model {} [7]) [] = .ok (scope_new_model {} [7]) ∧
    scope_finish_nregs (scope_new_model {} [7]) = 0 ∧
    maxSpObserved (scope_new_model {} [7]).sp [] = 2 ∧
    (0 : Int) ≠ 2 := by
  refine ⟨rfl, by decide, by decide, by decide⟩

/-- Claim C6 (amended): the `nregs` recorded by `scope_finish` equals
the high-water mark of `sp` taken over the trace's pushes only (joined
with the incoming `nregs`), not the maximum `sp` observed: `nregs` is
updated by `nregs_update` on every `push_`/`push_n_` but never sees the
initial `sp`, so a scope whose body performs no pushes keeps
`nregs = 0` although `sp ≥ 1` throughout. -/
theorem c6_nregs_is_push_high_water :
    ∀ (ops : List StackOp) (s s' : CScope),
    0 ≤ s.nregs → applyStackOps s ops = .ok s' →
    scope_finish_nregs s' = max s.nregs (pushHighWater s.sp ops) := by
  intro ops
  induction ops with
  | nil =>
    intro s s' h0 h
    simp only [applyStackOps] at h
    cases h
    simp only [scope_finish_nregs, pushHighWater]
    omega
  | cons op ops ih =>
    intro s s' h0 h
    simp only [applyStackOps] at h
    cases op with
    | push =>
      simp only [applyStackOp, push_] at h
      split at h
      · rw [exc_bind_err] at h; exact absurd h (by simp)
      · rw [exc_bind_ok] at h
        have := ih _ _ (by simp; omega) h
        simp only [scope_finish_nregs] at this ⊢
        simp only [this, pushHighWater]
        simp only [max_def]
        split_ifs <;> omega
    | pushN n =>
      simp only [applyStackOp, push_n_] at h
      split at h
      · rw [exc_bind_err] at h; exact absurd h (by simp)
      · rw [exc_bind_ok] at h
        have := ih _ _ (by simp; omega) h
        simp only [scope_finish_nregs] at this ⊢
        simp only [this, pushHighWater]
        simp only [max_def]
        split_ifs <;> omega
    | pop =>
      simp only [applyStackOp] at h
      rw [exc_bind_ok] at h
      have := ih _ _ (by simp [pop_]; omega) h
      simp only [scope_finish_nregs] at this ⊢
      simp only [this, pushHighWater, pop_]
    | popN n =>
      simp only [applyStackOp] at h
      rw [exc_bind_ok] at h
      have := ih _ _ (by simp [pop_n]; omega) h
      simp only [scope_finish_nregs] at this ⊢
      simp only [this, pushHighWater, pop_n]

/-- Claim C6 (witness for the amended theorem): a push-pop-push trace
from a fresh one-local scope ends with `nregs = 3`, the highest
`sp`-after-push. -/
theorem c6_witness :
    applyStackOps (scope_new_model {} [7])
      [StackOp.push, StackOp.pop, StackOp.push, StackOp.push] =
      .ok { scope_new_model {} [7] with sp := 4, nregs := 4 } ∧
    scope_finish_nregs { scope_new_model {} [7] with sp := 4, nregs := 4 } =
      max (scope_new_model {} [7]).nregs
        (pushHighWater (scope_new_model {} [7]).sp
          [StackOp.push, StackOp.pop, StackOp.push, StackOp.push]) := by
  constructor
  · rfl
  · exact c6_nregs_is_push_high_water _ _ _ (by decide) (by rfl)

/-- A sequence of `new_msym` insertions (the way `codegen` touches the
method-symbol table), collecting the returned indices. -/
def msymFold (tbl : List Nat) : List Nat → Except String (List Nat × List Nat)
  | [] => .ok (tbl, [])
  | r :: rs =>
    match new_msym_tbl tbl r with
    | .error e => .error e
    | .ok (t, i) =>
      match msymFold t rs with
      | .error e => .error e
      | .ok (tf, idxs) => .ok (tf, i :: idxs)

theorem msym_scan_not_mem : ∀ (l : List Nat) (sym k : Nat),
    sym ∉ l → 0 ∉ l → msym_scan l sym k = k + l.length := by
  intro l
  induction l with
  | nil => intro sym k _ _; simp [msym_scan]
  | cons x rest ih =>
    intro sym k hs h0
    have hx : ¬(x = sym ∨ x = 0) := by
      rintro (rfl | rfl)
      · exact hs (List.mem_cons_self _ _)
      · exact h0 (List.mem_cons_self _ _)
    simp only [msym_scan, if_neg hx]
    rw [ih sym (k + 1) (fun h => hs (List.mem_cons_of_mem _ h))
        (fun h => h0 (List.mem_cons_of_mem _ h))]
    simp; omega

theorem msym_scan_mem : ∀ (l : List Nat) (sym k : Nat),
    0 ∉ l → sym ∈ l →
    ∃ j, j < l.length ∧ msym_scan l sym k = k + j ∧ l.getD j 0 = sym := by
  intro l
  induction l with
  | nil => intro sym k _ h; cases h
  | cons x rest ih =>
    intro sym k h0 hs
    by_cases hx : x = sym ∨ x = 0
    · have hxs : x = sym := by
        rcases hx with rfl | rfl
        · rfl
        · exact absurd (List.mem_cons_self _ _) h0
      refine ⟨0, by simp, ?_, by simpa using hxs⟩
      simp [msym_scan, hx]
    · have hsrest : sym ∈ rest := by
        rcases List.mem_cons.mp hs with rfl | h
        · exact absurd (Or.inl rfl) hx
        · exact h
      obtain ⟨j, hj, hscan, hget⟩ :=
        ih sym (k + 1) (fun h => h0 (List.mem_cons_of_mem _ h)) hsrest
      refine ⟨j + 1, by simp; omega, ?_, by simpa using hget⟩
      simp only [msym_scan, if_neg hx]
      rw [hscan]; omega

theorem new_msym_tbl_mem (tbl : List Nat) (sym : Nat)
    (h0 : 0 ∉ tbl) (hs : sym ∈ tbl) (hlen : tbl.length ≤ 256) :
    ∃ i, new_msym_tbl tbl sym = .ok (tbl, i) ∧ i < tbl.length := by
  obtain ⟨j, hj, hscan, hget⟩ := msym_scan_mem tbl sym 0 h0 hs
  have htake : tbl.take 256 = tbl := List.take_of_length_le hlen
  refine ⟨j, ?_, hj⟩
  simp only [new_msym_tbl, htake, hscan]
  have hj256 : ¬(0 + j = 256) := by omega
  rw [if_neg hj256]
  have : 0 + j < tbl.length := by omega
  rw [if_pos this, if_pos (by simpa using hget)]
  simp

theorem new_msym_tbl_absent (tbl : List Nat) (sym : Nat)
    (h0 : 0 ∉ tbl) (hs : sym ∉ tbl) (hlen : tbl.length < 256) :
    new_msym_tbl tbl sym = .ok (tbl ++ [sym], tbl.length) := by
  have htake : tbl.take 256 = tbl := List.take_of_length_le (by omega)
  have hscan := msym_scan_not_mem tbl sym 0 hs h0
  simp only [new_msym_tbl, htake, hscan]
  rw [if_neg (by omega), if_neg (by omega)]
  simp

theorem new_msym_tbl_full (tbl : List Nat) (sym : Nat)
    (h0 : 0 ∉ tbl) (hs : sym ∉ tbl) (hlen : tbl.length = 256) :
    new_msym_tbl tbl sym = .error "too many symbols (max 256)" := by
  have htake : tbl.take 256 = tbl := List.take_of_length_le (by omega)
  have hscan := msym_scan_not_mem tbl sym 0 hs h0
  simp only [new_msym_tbl, htake, hscan]
  rw [if_pos (by omega)]

theorem msymFold_inv : ∀ (reqs tbl : List Nat), tbl.Nodup → 0 ∉ tbl →
    (∀ x ∈ reqs, x ≠ 0) → (tbl.toFinset ∪ reqs.toFinset).card ≤ 256 →
    ∃ tf idxs, msymFold tbl reqs = .ok (tf, idxs) ∧ tf.Nodup ∧ 0 ∉ tf ∧
      tf.length ≤ 256 ∧ ∀ j ∈ idxs, j < 256 := by
  intro reqs
  induction reqs with
  | nil =>
    intro tbl hnd h0 _ hcard
    have hlen : tbl.length ≤ 256 := by
      have := List.toFinset_card_of_nodup hnd
      have hsub : tbl.toFinset ⊆ tbl.toFinset ∪ ([] : List Nat).toFinset :=
        Finset.subset_union_left
      have := Finset.card_le_card hsub
      omega
    exact ⟨tbl, [], rfl, hnd, h0, hlen, by simp⟩
  | cons r rs ih =>
    intro tbl hnd h0 hnz hcard
    have hlen : tbl.length ≤ 256 := by
      have := List.toFinset_card_of_nodup hnd
      have hsub : tbl.toFinset ⊆ tbl.toFinset ∪ (r :: rs).toFinset :=
        Finset.subset_union_left
      have := Finset.card_le_card hsub
      omega
    by_cases hmem : r ∈ tbl
    · obtain ⟨i, heq, hilt⟩ := new_msym_tbl_mem tbl r h0 hmem hlen
      have hcard' : (tbl.toFinset ∪ rs.toFinset).card ≤ 256 := by
        refine le_trans (Finset.card_le_card ?_) hcard
        simp only [List.toFinset_cons]
        exact Finset.union_subset_union_right (Finset.subset_insert _ _)
      obtain ⟨tf, idxs, hfold, h1, h2, h3, h4⟩ :=
        ih tbl hnd h0 (fun x hx => hnz x (List.mem_cons_of_mem _ hx)) hcard'
      refine ⟨tf, i :: idxs, ?_, h1, h2, h3, ?_⟩
      · simp only [msymFold, heq, hfold]
      · intro j hj
        rcases List.mem_cons.mp hj with rfl | hj
        · omega
        · exact h4 j hj
    · have hlt : tbl.length < 256 := by
        have hc1 : insert r tbl.toFinset ⊆ tbl.toFinset ∪ (r :: rs).toFinset := by
          simp only [List.toFinset_cons]
          intro x hx
          rcases Finset.mem_insert.mp hx with rfl | hx
          · exact Finset.mem_union_right _ (Finset.mem_insert_self _ _)
          · exact Finset.mem_union_left _ hx
        have hc2 := Finset.card_le_card hc1
        have hc3 : (insert r tbl.toFinset).card = tbl.toFinset.card + 1 :=
          Finset.card_insert_of_not_mem (by simpa using hmem)
        have := List.toFinset_card_of_nodup hnd
        omega
      have heq := new_msym_tbl_absent tbl r h0 hmem hlt
      have hnd' : (tbl ++ [r]).Nodup := by
        rw [List.nodup_append]
        exact ⟨hnd, List.nodup_singleton r,
          fun a ha hb => hmem (by simpa using (List.mem_singleton.mp hb) ▸ ha)⟩
      have h0' : 0 ∉ tbl ++ [r] := by
        intro h
        rcases List.mem_append.mp h with h | h
        · exact h0 h
        · exact hnz r (List.mem_cons_self _ _) (List.mem_singleton.mp h).symm
      have hcard' : ((tbl ++ [r]).toFinset ∪ rs.toFinset).card ≤ 256 := by
        refine le_trans (Finset.card_le_card ?_) hcard
        intro x hx
        simp only [List.toFinset_append, List.toFinset_cons] at hx ⊢
        rcases Finset.mem_union.mp hx with hx | hx
        · rcases Finset.mem_union.mp hx with hx | hx
          · exact Finset.mem_union_left _ hx
          · exact Finset.mem_union_right _
              (by simpa using Or.inl (by simpa using hx))
        · exact Finset.mem_union_right _ (Finset.mem_insert_of_mem hx)
      obtain ⟨tf, idxs, hfold, h1, h2, h3, h4⟩ :=
        ih (tbl ++ [r]) hnd' h0' (fun x hx => hnz x (List.mem_cons_of_mem _ hx)) hcard'
      refine ⟨tf, tbl.length :: idxs, ?_, h1, h2, h3, ?_⟩
      · simp only [msymFold, heq, hfold]
      · intro j hj
        rcases List.mem_cons.mp hj with rfl | hj
        · omega
        · exact h4 j hj

/-- Claim C5: the method-symbol table (`new_msym`) never holds more
than 256 entries: inserting when the table already contains 256
distinct (nonzero) symbols and the requested symbol is absent raises
the "too many symbols" compile error, while any sequence of `new_msym`
calls touching at most 256 distinct symbols succeeds, keeps the table
within 256 entries, and returns only indices in `[0, 255]`. -/
theorem c5_msym_table_capacity :
    (∀ (tbl : List Nat) (sym : Nat), tbl.length = 256 → tbl.Nodup →
      0 ∉ tbl → sym ∉ tbl →
      new_msym_tbl tbl sym = .error "too many symbols (max 256)")
    ∧ (∀ reqs : List Nat, (∀ x ∈ reqs, x ≠ 0) → reqs.toFinset.card ≤ 256 →
      ∃ tf idxs, msymFold [] reqs = .ok (tf, idxs) ∧ tf.length ≤ 256 ∧
        ∀ j ∈ idxs, j < 256) := by
  constructor
  · intro tbl sym hlen hnd h0 hs
    exact new_msym_tbl_full tbl sym h0 hs hlen
  · intro reqs hnz hcard
    obtain ⟨tf, idxs, hfold, _, _, h3, h4⟩ :=
      msymFold_inv reqs [] List.nodup_nil (by simp) hnz (by simpa using hcard)
    exact ⟨tf, idxs, hfold, h3, h4⟩

/-- Claim C5 (witness): a full table of the 256 distinct symbols
`1..256` rejects symbol `300`; the request sequence `[5, 6, 5]`
succeeds with small indices. -/
theorem c5_witness :
    new_msym_tbl (List.range' 1 256) 300 = .error "too many symbols (max 256)" ∧
    (∃ tf idxs, msymFold [] [5, 6, 5] = .ok (tf, idxs) ∧ tf.length ≤ 256 ∧
      ∀ j ∈ idxs, j < 256) := by
  constructor
  · exact c5_msym_table_capacity.1 (List.range' 1 256) 300 (by simp)
      (List.nodup_range' 1 256) (by simp [List.mem_range']; omega)
      (by simp [List.mem_range']; omega)
  · exact c5_msym_table_capacity.2 [5, 6, 5] (by decide) (by decide)

theorem findIdx_of_not_mem : ∀ (l : List Nat) (sym : Nat), sym ∉ l →
    l.findIdx? (fun x => x = sym) = none := by
  intro l
  induction l with
  | nil => intro sym _; rfl
  | cons x rest ih =>
    intro sym h
    have hx : ¬(x = sym) := fun hc => h (hc ▸ List.mem_cons_self _ _)
    simp only [List.findIdx?_cons, decide_eq_true_eq]
    rw [if_neg hx]
    have := ih sym (fun hc => h (List.mem_cons_of_mem _ hc))
    simp [this]

theorem findIdx_of_mem : ∀ (l : List Nat) (sym : Nat), sym ∈ l →
    ∃ i, l.findIdx? (fun x => x = sym) = some i ∧ i < l.length ∧
      l.getD i 0 = sym := by
  intro l
  induction l with
  | nil => intro sym h; cases h
  | cons x rest ih =>
    intro sym h
    by_cases hx : x = sym
    · refine ⟨0, ?_, by simp, by simpa using hx⟩
      simp [List.findIdx?_cons, hx]
    · have hrest : sym ∈ rest := by
        rcases List.mem_cons.mp h with rfl | h
        · exact absurd rfl hx
        · exact h
      obtain ⟨i, hfind, hlt, hget⟩ := ih sym hrest
      refine ⟨i + 1, ?_, by simp; omega, by simpa using hget⟩
      simp only [List.findIdx?_cons, decide_eq_true_eq]
      rw [if_neg hx]
      simp [hfind]

/-- Claim C9: `new_sym` on a table whose length is strictly between 125
and 256, when the symbol is absent, first pads the table with zero
entries up to length 256 (reserving indices through 255) and then
appends the new symbol at index 256, returning 256; a symbol already
present returns its (first) existing index without growing the
table. -/
theorem c9_new_sym_densify :
    (∀ (tbl : List Nat) (sym : Nat), 125 < tbl.length → tbl.length < 256 →
      sym ∉ tbl →
      new_sym_tbl tbl sym =
        (tbl ++ List.replicate (256 - tbl.length) 0 ++ [sym], 256))
    ∧ (∀ (tbl : List Nat) (sym : Nat), sym ∈ tbl →
      ∃ i, new_sym_tbl tbl sym = (tbl, i) ∧ i < tbl.length ∧
        tbl.getD i 0 = sym) := by
  constructor
  · intro tbl sym h125 h256 habs
    have hfind := findIdx_of_not_mem tbl sym habs
    simp only [new_sym_tbl, hfind]
    rw [if_pos ⟨h125, h256⟩]
    have hlen : (tbl ++ List.replicate (256 - tbl.length) 0).length = 256 := by
      simp; omega
    simp [hlen]
  · intro tbl sym hmem
    obtain ⟨i, hfind, hlt, hget⟩ := findIdx_of_mem tbl sym hmem
    refine ⟨i, ?_, hlt, hget⟩
    simp [new_sym_tbl, hfind]

/-- Claim C9 (witness): a 126-entry table densifies and returns index
256 for a fresh symbol; a present symbol returns its index. -/
theorem c9_witness :
    new_sym_tbl (List.range' 1 126) 999 =
      (List.range' 1 126 ++ List.replicate 130 0 ++ [999], 256) ∧
    (∃ i, new_sym_tbl [4, 5] 5 = ([4, 5], i) ∧ i < 2 ∧ [4, 5].getD i 0 = 5) := by
  constructor
  · have := c9_new_sym_densify.1 (List.range' 1 126) 999 (by simp) (by simp)
      (by simp [List.mem_range']; omega)
    simpa using this
  · exact c9_new_sym_densify.2 [4, 5] 5 (by decide)

theorem getarg_sbx_mkop (c : Op) (a d : Int) :
    GETARG_sBx (MKOP_AsBx c a d) = d := by
  simp [GETARG_sBx, MKOP_AsBx, MKOP_ABx]

/-- The state `dispatch` produces on a jump opcode: the instruction at
`p` rewritten with offset `pc - p` and `lastlabel` moved to `pc`. -/
def dispatch_result (s : CScope) (p : Nat) : CScope :=
  { s with
    lastlabel := (s.iseq.length : Int),
    iseq := s.iseq.set p (MKOP_AsBx ((s.iseq.getD p default).op)
      (GETARG_A (s.iseq.getD p default)) ((s.iseq.length : Int) - (p : Int))) }

/-- A three-instruction scope with an unresolved `JMP` at position 0. -/
def c8Scope : CScope :=
  { sp := 1, nlocals := 1,
    iseq := [MKOP_sBx Op.JMP 0, MKOP_A Op.LOADNIL 1, MKOP_A Op.LOADNIL 2] }

/-- Claim C8 (counterexample): `dispatch` on a `JMP` at position 0 with
the current `pc` at 3 writes `sBx = 3` — the offset from the jump
instruction itself — whereas the claim asserts `t - (p + 1) = 2`. -/
theorem c8_counterexample :
    (∃ s', dispatch c8Scope 0 = .ok s' ∧
      GETARG_sBx (s'.iseq.getD 0 default) = 3) ∧
    (3 : Int) ≠ 3 - (0 + 1) := by
  refine ⟨⟨_, rfl, by decide⟩, by decide⟩

/-- Claim C8 (amended): when `dispatch` resolves a jump instruction at
position `p` while the current program counter is `t`, the `sBx` field
written into the instruction equals `t - p`: the signed offset is
measured from the jump instruction itself, not from the instruction
after it. -/
theorem c8_dispatch_offset (s : CScope) (p : Nat) (hp : p < s.iseq.length)
    (hop : (s.iseq.getD p default).op = Op.JMP ∨
           (s.iseq.getD p default).op = Op.JMPIF ∨
           (s.iseq.getD p default).op = Op.JMPNOT ∨
           (s.iseq.getD p default).op = Op.ONERR) :
    ∃ s', dispatch s p = .ok s' ∧
      s'.iseq.length = s.iseq.length ∧
      GETARG_sBx (s'.iseq.getD p default) = (s.iseq.length : Int) - (p : Int) ∧
      s'.lastlabel = (s.iseq.length : Int) := by
  have hset : ∀ (a : Instr),
      ((s.iseq.set p a).getD p default) = a := by
    intro a
    rw [List.getD_eq_getElem?_getD, List.getElem?_set_self (by omega)]
    rfl
  rcases hop with h | h | h | h <;>
  · have hd : dispatch s p = .ok (dispatch_result s p) := by
      simp only [dispatch, GET_OPCODE, dispatch_result, h]
    refine ⟨_, hd, ?_, ?_, ?_⟩
    · simp [dispatch_result]
    · simp only [dispatch_result]
      rw [hset, getarg_sbx_mkop]
    · rfl

/-- Claim C8 (witness): the amended offset rule applied to the concrete
three-instruction scope. -/
theorem c8_witness :
    ∃ s', dispatch c8Scope 0 = .ok s' ∧
      s'.iseq.length = c8Scope.iseq.length ∧
      GETARG_sBx (s'.iseq.getD 0 default) =
        (c8Scope.iseq.length : Int) - ((0 : Nat) : Int) ∧
      s'.lastlabel = (c8Scope.iseq.length : Int) :=
  c8_dispatch_offset c8Scope 0 (by decide) (Or.inl (by decide))

/-- A two-instruction scope ending in `MOVE 5, 2`, ready for peephole
rewriting. -/
def c7Scope : CScope :=
  { sp := 3, nlocals := 1,
    iseq := [MKOP_A Op.LOADNIL 1, MKOP_AB Op.MOVE 5 2] }

/-- Claim C7 (counterexample): the `JMPIF`-after-`MOVE` peephole rule
fires (the `MOVE` is folded into the jump's test register, leaving the
stream the same length), yet `genop_peep` returns `pc - 1 = 1`, not
`0`. -/
theorem c7_counterexample :
    genop_peep c7Scope (MKOP_AsBx Op.JMPIF 5 3) false =
      ({ c7Scope with iseq := [MKOP_A Op.LOADNIL 1, MKOP_AsBx Op.JMPIF 2 3] }, 1) ∧
    (1 : Int) ≠ 0 := by
  exact ⟨by rfl, by decide⟩

/-- A one-instruction scope ending in `SETIV`, ready for the
`RETURN`-after-`SETxx` peephole rule. -/
def c7SetScope : CScope :=
  { sp := 3, nlocals := 1, iseq := [MKOP_ABx Op.SETIV 2 3] }

/-- Claim C7 (amended): a fired peephole rule does not always return
`0`; several rules return an instruction position instead.  The first
conjunct characterises the `JMPIF`/`JMPNOT`-after-`MOVE` rule in
general: under the peephole preconditions, with the previous
instruction a `MOVE` whose target matches the jump's test register,
the jump is rewritten to test the `MOVE`'s source and `pc - 1` is
returned.  The other conjuncts show two further rules returning
nonzero positions on concrete streams: the overridden-`MOVE` rule
(`MOVE` after `MOVE` into a temporary: the stream is shortened, the
merged `MOVE` re-peeped, and its emit position returned) and the
`RETURN`-after-`SETxx` rule (the store is dropped and re-peeped, the
`RETURN` re-emitted, and its position returned). -/
theorem c7_peep_rules_nonzero :
    (∀ (s : CScope) (i : Instr) (val : Bool),
      ¬s.noOptimize → s.lastlabel ≠ (s.iseq.length : Int) → 0 < s.iseq.length →
      (s.iseq.getD (s.iseq.length - 1) default).op = Op.MOVE →
      (i.op = Op.JMPIF ∨ i.op = Op.JMPNOT) →
      GETARG_A i = GETARG_A (s.iseq.getD (s.iseq.length - 1) default) →
      genop_peep s i val =
        ({ s with iseq := s.iseq.dropLast ++
            [MKOP_AsBx i.op (GETARG_B (s.iseq.getD (s.iseq.length - 1) default))
              (GETARG_sBx i)] },
         (s.iseq.length : Int) - 1)) ∧
    (genop_peep c7Scope (MKOP_AB Op.MOVE 3 5) false).2 = 1 ∧
    (genop_peep c7SetScope (MKOP_AB Op.RETURN 4 OP_R_NORMAL) false).2 = 1 := by
  refine ⟨?_, by decide, by decide⟩
  intro s i val hopt hlbl hpc hmov hjop ha
  rcases hjop with hj | hj <;>
  · simp only [genop_peep, genop_peep_go, GET_OPCODE]
    rw [if_pos ⟨hopt, hlbl, hpc⟩]
    simp only [hj, hmov, ha]
    simp

/-- Claim C7 (witness): the amended `JMPIF` rule applied to the
concrete `MOVE`-then-`JMPIF` stream. -/
theorem c7_witness :
    genop_peep c7Scope (MKOP_AsBx Op.JMPIF 5 3) false =
      ({ c7Scope with iseq := c7Scope.iseq.dropLast ++
          [MKOP_AsBx (MKOP_AsBx Op.JMPIF 5 3).op
            (GETARG_B (c7Scope.iseq.getD (c7Scope.iseq.length - 1) default))
            (GETARG_sBx (MKOP_AsBx Op.JMPIF 5 3))] },
       (c7Scope.iseq.length : Int) - 1) :=
  c7_peep_rules_nonzero.1 c7Scope (MKOP_AsBx Op.JMPIF 5 3) false
    (by decide) (by decide) (by decide) (by decide) (Or.inl (by decide)) (by decide)

/-- Claim C10: if peephole optimization is enabled, `lastlabel` differs
from `pc`, and the previous instruction is an `OP_STRING` whose pooled
literal is the empty string, then `genop_peep` on an `OP_ADD` or
`OP_SUB` instruction (previous opcode thus not `OP_LOADI`) falls
through the `OP_ADD`/`OP_SUB` case into the `OP_STRCAT` elision rules:
the `OP_STRING` is removed, nothing is emitted, and `0` is returned —
the arithmetic instruction silently disappears from the stream. -/
theorem c10_add_after_empty_string (s : CScope) (i : Instr) (val : Bool)
    (hopt : ¬s.noOptimize) (hlbl : s.lastlabel ≠ (s.iseq.length : Int))
    (hpc : 0 < s.iseq.length)
    (hstr : (s.iseq.getD (s.iseq.length - 1) default).op = Op.STRING)
    (hpool : s.pool.getD
        (GETARG_Bx (s.iseq.getD (s.iseq.length - 1) default)).toNat
        (Value.fixnum 0) = Value.str "")
    (hadd : i.op = Op.ADD ∨ i.op = Op.SUB) :
    genop_peep s i val = ({ s with iseq := s.iseq.dropLast }, 0) := by
  rcases hadd with hA | hA <;>
  · simp only [genop_peep, genop_peep_go, GET_OPCODE]
    rw [if_pos ⟨hopt, hlbl, hpc⟩]
    simp only [hA, hstr]
    have hstr2 := hstr
    have hpool2 := hpool
    simp only [List.getD_eq_getElem?_getD] at hstr2 hpool2
    simp [peep_strcat, empty_pool_str, hstr2, hpool2]
    rw [if_pos (by decide)]
    exact ⟨rfl, rfl⟩

/-- A scope whose last instruction pushes the pooled empty string. -/
def c10Scope : CScope :=
  { sp := 4, nlocals := 1, pool := [Value.str ""],
    iseq := [MKOP_A Op.LOADNIL 1, MKOP_ABx Op.STRING 3 0] }

/-- Claim C10 (witness): a concrete `OP_ADD` after `STRING ""` is
swallowed together with the `OP_STRING`. -/
theorem c10_witness :
    genop_peep c10Scope (MKOP_ABC Op.ADD 1 7 2) true =
      ({ c10Scope with iseq := c10Scope.iseq.dropLast }, 0) :=
  c10_add_after_empty_string c10Scope (MKOP_ABC Op.ADD 1 7 2) true
    (by decide) (by decide) (by decide) (by decide) (by decide)
    (Or.inl (by decide))

/-- The number of instructions with a given opcode in a stream. -/
def countOp (l : List Instr) (o : Op) : Nat :=
  (l.filter (fun i => i.op = o)).length

/-- A fresh scope with no locals (`sp = nlocals = 1`, the `self`
slot), as `scope_new` produces for a bodyless local list. -/
def testScope : CScope := { sp := 1, nlocals := 1 }

set_option maxRecDepth 200000 in
/-- Claim C3 (counterexample): lowering a hash literal with exactly 126
key/value pairs in `VAL` mode emits *two* `OP_HASH` instructions and
one `__update` merge send (the flush fires inside the loop at
`len = 126`, and the trailing emission then merges an empty hash),
not one `OP_HASH` and no merge.  The only `OP_SEND`s in this run are
the `__update` merges. -/
theorem c3_counterexample :
    (codegen 1000 (some (Node.nHash (List.replicate 126 (Node.nNil, Node.nNil))))
        true testScope).map
        (fun s => (countOp s.iseq Op.HASH, countOp s.iseq Op.SEND)) =
      .ok (2, 1) ∧
    ((2 : Nat), (1 : Nat)) ≠ (1, 0) :=
  ⟨by decide, by decide⟩

set_option maxRecDepth 200000 in
/-- Claim C3 (amended): a hash literal with exactly 125 pairs emits one
`OP_HASH` and no `__update` merge; at 126 pairs the in-loop flush fires,
so both the 126- and 127-pair literals emit two `OP_HASH` instructions
and one `__update` merge send. -/
theorem c3_hash_literal_flush :
    (codegen 1000 (some (Node.nHash (List.replicate 125 (Node.nNil, Node.nNil))))
        true testScope).map
        (fun s => (countOp s.iseq Op.HASH, countOp s.iseq Op.SEND)) =
      .ok (1, 0) ∧
    (codegen 1000 (some (Node.nHash (List.replicate 126 (Node.nNil, Node.nNil))))
        true testScope).map
        (fun s => (countOp s.iseq Op.HASH, countOp s.iseq Op.SEND)) =
      .ok (2, 1) ∧
    (codegen 1000 (some (Node.nHash (List.replicate 127 (Node.nNil, Node.nNil))))
        true testScope).map
        (fun s => (countOp s.iseq Op.HASH, countOp s.iseq Op.SEND)) =
      .ok (2, 1) :=
  ⟨by decide, by decide, by decide⟩

/-- The opcode of the most recently emitted instruction. -/
def lastOp (s : CScope) : Option Op := s.iseq.getLast?.map (fun i => i.op)

theorem push_eq_ok : ∀ {s s' : CScope}, push_ s = .ok s' →
    s' = { s with
           sp := s.sp + 1,
           nregs := if s.sp + 1 > s.nregs then s.sp + 1 else s.nregs } := by
  intro s s' h
  unfold push_ at h
  split at h
  · exact absurd h (by simp)
  · cases h; rfl

/-- Claim C4 (counterexample): the integer literal `-(MAXARG_sBx)`
(= -32767), reached via `NEGATE` of `INT "32767"`, is lowered with
`OP_LOADL` through the literal pool, not with `OP_LOADI`: the source's
range check `i < MAXARG_sBx && i > -MAXARG_sBx` is strict on both
sides. -/
theorem c4_counterexample :
    (codegen 10 (some (Node.nNegate (Node.nInt "32767".toList 10))) true
      testScope).map lastOp = .ok (some Op.LOADL) ∧
    some Op.LOADL ≠ some Op.LOADI :=
  ⟨by decide, by decide⟩

/-- Claim C4 (amended): `NEGATE` of `INT` at both boundaries
`-(MAXARG_sBx)` and `-(MAXARG_sBx + 1)` lowers with `OP_LOADL`; in
general, for an in-range parse, `OP_LOADI` is used iff
`-MAXARG_sBx < i < MAXARG_sBx` (strictly), both for plain `INT`
literals and for `NEGATE` of `INT`. -/
theorem c4_loadi_range :
    ((codegen 10 (some (Node.nNegate (Node.nInt "32767".toList 10))) true
        testScope).map lastOp = .ok (some Op.LOADL) ∧
     (codegen 10 (some (Node.nNegate (Node.nInt "32768".toList 10))) true
        testScope).map lastOp = .ok (some Op.LOADL)) ∧
    (∀ (fuel : Nat) (p : List Char) (base : Nat) (s s' : CScope) (i : Int),
      readint_mrb_int p base false = .ok (i, false) →
      codegen fuel (some (Node.nInt p base)) true s = .ok s' →
      (lastOp s' = some Op.LOADI ↔ (-MAXARG_sBx < i ∧ i < MAXARG_sBx))) ∧
    (∀ (fuel : Nat) (p : List Char) (base : Nat) (s s' : CScope) (i : Int),
      readint_mrb_int p base true = .ok (i, false) →
      codegen fuel (some (Node.nNegate (Node.nInt p base))) true s = .ok s' →
      (lastOp s' = some Op.LOADI ↔ (-MAXARG_sBx < i ∧ i < MAXARG_sBx))) := by
  refine ⟨⟨by decide, by decide⟩, ?_, ?_⟩
  · intro fuel p base s s' i hread hrun
    cases fuel with
    | zero => exact absurd hrun (by simp [codegen])
    | succ fuel =>
      simp only [codegen, hread, Bool.false_eq_true, if_false, reduceIte] at hrun
      split at hrun
      · rename_i hrange
        rw [push_eq_ok hrun]
        simp [lastOp, genop1, genop, genop_go, MKOP_AsBx, MKOP_ABx, MAXARG_sBx]
        simp [MAXARG_sBx] at hrange
        omega
      · rename_i hrange
        rw [push_eq_ok hrun]
        simp [lastOp, genop1, genop, genop_go, new_lit, MKOP_ABx, MAXARG_sBx]
        simp [MAXARG_sBx] at hrange
        omega
  · intro fuel p base s s' i hread hrun
    cases fuel with
    | zero => exact absurd hrun (by simp [codegen])
    | succ fuel =>
      simp only [codegen, hread, Bool.false_eq_true, if_false, reduceIte] at hrun
      split at hrun
      · rename_i hrange
        rw [push_eq_ok hrun]
        simp [lastOp, genop1, genop, genop_go, MKOP_AsBx, MKOP_ABx, MAXARG_sBx]
        simp [MAXARG_sBx] at hrange
        omega
      · rename_i hrange
        rw [push_eq_ok hrun]
        simp [lastOp, genop1, genop, genop_go, new_lit, MKOP_ABx, MAXARG_sBx]
        simp [MAXARG_sBx] at hrange
        omega

/-- The state after lowering the integer literal `5` in `VAL` mode from
a fresh scope. -/
def c4wState : CScope :=
  { sp := 2, nlocals := 1, nregs := 2, iseq := [MKOP_AsBx Op.LOADI 1 5] }

/-- Claim C4 (witness): the general `LOADI` range rule applied to the
in-range literal `5`. -/
theorem c4_witness :
    lastOp c4wState = some Op.LOADI ↔
      (-MAXARG_sBx < (5 : Int) ∧ (5 : Int) < MAXARG_sBx) :=
  c4_loadi_range.2.1 10 "5".toList 10 testScope c4wState 5 (by decide) (by decide)

theorem lastOp_raise_error (s : CScope) (msg : String) :
    lastOp (raise_error s msg) = some Op.ERR := by
  simp [raise_error, new_lit, genop1, genop, genop_go, lastOp, MKOP_ABx]

theorem walkBegin_append (s : CScope) (k : Nat) (bs rs : List LoopInfo)
    (hbs : ∀ f ∈ bs, f.type = LoopType.LOOP_BEGIN)
    (hrs : ∀ f ∈ rs, f.type = LoopType.LOOP_RESCUE) :
    (walkBegin s (bs ++ rs) k).2 = k + bs.length := by
  induction bs generalizing s k with
  | nil =>
    cases rs with
    | nil => simp [walkBegin]
    | cons r rest =>
      have : r.type = LoopType.LOOP_RESCUE := hrs r (List.mem_cons_self _ _)
      simp [walkBegin, this]
  | cons b bs ih =>
    have hb : b.type = LoopType.LOOP_BEGIN := hbs b (List.mem_cons_self _ _)
    simp only [List.cons_append, walkBegin, hb, if_pos, List.append_eq]
    rw [ih _ _ (fun f hf => hbs f (List.mem_cons_of_mem _ hf))]
    simp only [List.length_cons]
    omega

theorem walkRescue_all (rs : List LoopInfo) (k : Nat)
    (hrs : ∀ f ∈ rs, f.type = LoopType.LOOP_RESCUE) :
    walkRescue rs k = k + rs.length := by
  induction rs generalizing k with
  | nil => simp [walkRescue]
  | cons r rest ih =>
    have : r.type = LoopType.LOOP_RESCUE := hrs r (List.mem_cons_self _ _)
    simp only [walkRescue, this, if_pos]
    rw [ih _ (fun f hf => hrs f (List.mem_cons_of_mem _ hf))]
    simp; omega

/-- Claim C2 (counterexample): lowering `break` with no enclosing loop
frame does *not* abort compilation: `raise_error` merely emits a
runtime `OP_ERR` instruction and `codegen` returns successfully with
that instruction in the stream. -/
theorem c2_counterexample :
    (codegen 10 (some (Node.nBreak none)) false testScope).map
      (fun s => s.iseq.map (fun i => i.op)) = .ok [Op.ERR] ∧
    (codegen 10 (some (Node.nBreak none)) false testScope).isOk = true :=
  ⟨by decide, by decide⟩

theorem walkBegin_loop (l : List LoopInfo) : ∀ (s : CScope) (k : Nat),
    (walkBegin s l k).1.loop = s.loop := by
  induction l with
  | nil => intro s k; simp [walkBegin]
  | cons f rest ih =>
    intro s k
    by_cases hf : f.type = LoopType.LOOP_BEGIN
    · simp only [walkBegin, hf, if_pos]
      rw [ih]
      rfl
    · simp [walkBegin, hf]

theorem loop_break_no_target (f : Nat) (s : CScope) (bs rs : List LoopInfo)
    (hloop : s.loop = bs ++ rs)
    (hbs : ∀ fr ∈ bs, fr.type = LoopType.LOOP_BEGIN)
    (hrs : ∀ fr ∈ rs, fr.type = LoopType.LOOP_RESCUE) :
    ∃ s', loop_break (f + 2) none s = .ok s' ∧ lastOp s' = some Op.ERR := by
  cases hl : s.loop with
  | nil =>
    simp only [loop_break, hl, codegen, exc_bind_ok]
    simp only [Bool.false_eq_true, if_false, exc_bind_ok]
    exact ⟨_, rfl, lastOp_raise_error _ _⟩
  | cons f0 rest =>
    rcases hwb : walkBegin s s.loop 0 with ⟨s1, k⟩
    have hk : k = bs.length := by
      have h2 := walkBegin_append s 0 bs rs hbs hrs
      rw [← hloop, hwb] at h2
      simpa using h2
    have hs1loop : s1.loop = bs ++ rs := by
      have h2 := walkBegin_loop s.loop s 0
      rw [hwb] at h2
      simp at h2
      rw [h2, hloop]
    have hwr : walkRescue (s1.loop.drop k) k = bs.length + rs.length := by
      rw [hs1loop, hk, List.drop_left]
      exact walkRescue_all rs bs.length hrs
    have hget : s1.loop.get? (bs.length + rs.length) = none := by
      rw [hs1loop]
      rw [List.get?_eq_none]
      simp
    simp only [loop_break, hl, pure_bind]
    rw [← hl, hwb]
    simp only [hwr, hget]
    exact ⟨_, rfl, lastOp_raise_error _ _⟩

/-- Claim C2 (amended): lowering a `break` when the scope has no
enclosing loop frame, or only `LOOP_BEGIN` frames followed by
`LOOP_RESCUE` frames, is *not* a compile-time abort: `loop_break`
walks the frames (emitting a `POPERR 1` per `LOOP_BEGIN`), finds no
target, and calls `raise_error`, which interns the message and emits a
runtime `OP_ERR` instruction; compilation continues and the `OP_ERR`
is the last instruction emitted. -/
theorem c2_break_no_loop (fuel : Nat) (s : CScope) (bs rs : List LoopInfo)
    (hloop : s.loop = bs ++ rs)
    (hbs : ∀ fr ∈ bs, fr.type = LoopType.LOOP_BEGIN)
    (hrs : ∀ fr ∈ rs, fr.type = LoopType.LOOP_RESCUE)
    (hfuel : 3 ≤ fuel) :
    ∃ s', codegen fuel (some (Node.nBreak none)) false s = .ok s' ∧
      lastOp s' = some Op.ERR := by
  obtain ⟨f, rfl⟩ : ∃ f, fuel = f + 3 := ⟨fuel - 3, by omega⟩
  obtain ⟨s2, hlb, herr⟩ := loop_break_no_target f s bs rs hloop hbs hrs
  refine ⟨s2, ?_, herr⟩
  simp only [codegen]
  rw [hlb, exc_bind_ok]
  simp

/-- A `LOOP_BEGIN` frame (a `begin` body being compiled). -/
def beginFrame : LoopInfo := { type := LoopType.LOOP_BEGIN }

/-- A `LOOP_RESCUE` frame (a rescue handler being compiled). -/
def rescueFrame : LoopInfo := { type := LoopType.LOOP_RESCUE }

/-- A scope inside a `begin` body nested in a rescue handler, with no
actual loop: `break` has no target here. -/
def c2Scope : CScope :=
  { sp := 1, nlocals := 1, loop := [beginFrame, rescueFrame] }

/-- Claim C2 (witness): `break` under only `LOOP_BEGIN`/`LOOP_RESCUE`
frames compiles on, ending with the runtime `OP_ERR`. -/
theorem c2_witness :
    ∃ s', codegen 5 (some (Node.nBreak none)) false c2Scope = .ok s' ∧
      lastOp s' = some Op.ERR :=
  c2_break_no_loop 5 c2Scope [beginFrame] [rescueFrame] rfl
    (by decide) (by decide) (by omega)

mutual

/-- The node kinds of the modelled subset whose lowering respects the
claimed `sp` discipline in both modes (the dispatcher cases that push
exactly the `VAL`-mode result), closed under subexpressions.  `REDO`,
`RETRY`, `SCOPE`, `POSTEXE` (no push even in `VAL` mode) and
`DEFINED`, `NEGATE` (which lower their operand in `VAL` mode even when
called with `NOVAL`) are excluded. -/
def spOk : Node → Bool
  | Node.nInt _ _ => true
  | Node.nStr _ => true
  | Node.nNil => true
  | Node.nTrue => true
  | Node.nFalse => true
  | Node.nSelf => true
  | Node.nBegin l => spOkList l
  | Node.nHash pr => spOkPairs pr
  | Node.nBreak a => spOkOpt a
  | _ => false

/-- `spOk` on every member of a `BEGIN` body. -/
def spOkList : List Node → Bool
  | [] => true
  | c :: rest => spOk c && spOkList rest

/-- `spOk` on every key and value of a hash literal. -/
def spOkPairs : List (Node × Node) → Bool
  | [] => true
  | (k, v) :: rest => spOk k && spOk v && spOkPairs rest

/-- `spOk` on an optional tree (`NULL` trees are fine). -/
def spOkOpt : Option Node → Bool
  | none => true
  | some n => spOk n

end

theorem sp_genop1 (s : CScope) (i : Instr) : (genop1 s i).sp = s.sp := rfl

theorem sp_genop_peep1 (s : CScope) (i : Instr) (v : Bool) :
    (genop_peep1 s i v).sp = s.sp := rfl

theorem loop_genop_peep1 (s : CScope) (i : Instr) (v : Bool) :
    (genop_peep1 s i v).loop = s.loop := rfl

theorem sp_raise_error (s : CScope) (m : String) :
    (raise_error s m).sp = s.sp := rfl

theorem sp_emitPoperrs : ∀ (n : Nat) (s : CScope),
    (emitPoperrs s n).sp = s.sp := by
  intro n
  induction n with
  | zero => intro s; rfl
  | succ n ih => intro s; rw [emitPoperrs, ih, sp_genop_peep1]

theorem sp_walkBegin : ∀ (l : List LoopInfo) (s : CScope) (k : Nat),
    (walkBegin s l k).1.sp = s.sp := by
  intro l
  induction l with
  | nil => intro s k; rfl
  | cons fr rest ih =>
    intro s k
    by_cases hf : fr.type = LoopType.LOOP_BEGIN
    · simp only [walkBegin, hf, if_pos]
      rw [ih, sp_genop_peep1]
    · simp [walkBegin, hf]

theorem sp_new_msym : ∀ {s s2 : CScope} {sym : Nat} {i : Nat},
    new_msym s sym = .ok (s2, i) → s2.sp = s.sp := by
  intro s s2 sym i h
  unfold new_msym at h
  cases htbl : new_msym_tbl s.syms sym with
  | error e => rw [htbl] at h; exact absurd h (by simp [Except.map])
  | ok p =>
    rw [htbl] at h
    simp [Except.map] at h
    rw [← h.1]

theorem bind_ok_elim {α β : Type} {x : Except String α} {f : α → Except String β}
    {b : β} (h : (x >>= f) = .ok b) : ∃ a, x = .ok a ∧ f a = .ok b := by
  cases x with
  | error e => rw [exc_bind_err] at h; exact absurd h (by simp)
  | ok a => exact ⟨a, rfl, h⟩

theorem sp_hash_flush : ∀ {s s' : CScope} {len : Nat} {update : Bool},
    hash_flush s len update = .ok s' →
    s'.sp = s.sp - 2 * len - (if update then 1 else 0) + 1 := by
  intro s s' len update h
  unfold hash_flush at h
  cases update with
  | false =>
    simp only [Bool.false_eq_true, if_false, pure_bind] at h
    rw [push_eq_ok h]
    simp [genop1, genop, genop_go, pop_n]
    omega
  | true =>
    simp only [reduceIte] at h
    obtain ⟨p2, hm, h2⟩ := bind_ok_elim h
    obtain ⟨s2, idx⟩ := p2
    simp only [pure_bind] at h2
    rw [push_eq_ok h2]
    have hsp := sp_new_msym hm
    simp [genop1, genop, genop_go, pop_n, pop_] at hsp ⊢
    omega

/-- The `sp` effect of `codegen` on the conforming node kinds, proved
mutually with the list/hash/`loop_break` helpers by induction on the
fuel: a `VAL`-mode lowering of an `spOk` node leaves `sp` exactly one
higher, a `NOVAL`-mode lowering leaves it unchanged; `loop_break`
always preserves `sp`. -/
theorem codegen_sp_delta : ∀ (fuel : Nat),
    (∀ (t : Option Node) (val : Bool) (s s' : CScope), spOkOpt t = true →
      codegen fuel t val s = .ok s' →
      s'.sp = s.sp + (if val then 1 else 0)) ∧
    (∀ (l : List Node) (val : Bool) (s s' : CScope), spOkList l = true →
      codegenList fuel l val s = .ok s' →
      s'.sp = s.sp + (if val && !l.isEmpty then 1 else 0)) ∧
    (∀ (pr : List (Node × Node)) (len : Nat) (update val : Bool) (s s' : CScope),
      spOkPairs pr = true →
      codegenHash fuel pr len update val s = .ok s' →
      s'.sp = if val then s.sp - 2 * len - (if update then 1 else 0) + 1 else s.sp) ∧
    (∀ (a : Option Node) (s s' : CScope), spOkOpt a = true →
      loop_break fuel a s = .ok s' → s'.sp = s.sp) := by
  intro fuel
  induction fuel with
  | zero =>
    refine ⟨?_, ?_, ?_, ?_⟩
    · intro t val s s' _ h; exact absurd h (by simp [codegen])
    · intro l val s s' _ h; exact absurd h (by simp [codegenList])
    · intro pr len update val s s' _ h; exact absurd h (by simp [codegenHash])
    · intro a s s' _ h; exact absurd h (by simp [loop_break])
  | succ fuel ih =>
    obtain ⟨iha, ihl, ihh, ihb⟩ := ih
    refine ⟨?_, ?_, ?_, ?_⟩
    · intro t val s s' hok hrun
      cases t with
      | none =>
        cases val with
        | false =>
          simp only [codegen, Bool.false_eq_true, if_false] at hrun
          cases hrun; simp
        | true =>
          simp only [codegen, reduceIte] at hrun
          rw [push_eq_ok hrun]
          simp [genop1, genop, genop_go]
      | some n =>
        cases n with
        | nRedo => simp [spOkOpt, spOk] at hok
        | nRetry => simp [spOkOpt, spOk] at hok
        | nScope lv body => simp [spOkOpt, spOk] at hok
        | nDefined operand => simp [spOkOpt, spOk] at hok
        | nPostexe body => simp [spOkOpt, spOk] at hok
        | nNegate operand => simp [spOkOpt, spOk] at hok
        | nNil =>
          cases val with
          | false =>
            simp only [codegen, Bool.false_eq_true, if_false] at hrun
            cases hrun; simp
          | true =>
            simp only [codegen, reduceIte] at hrun
            rw [push_eq_ok hrun]
            simp [genop1, genop, genop_go]
        | nTrue =>
          cases val with
          | false =>
            simp only [codegen, Bool.false_eq_true, if_false] at hrun
            cases hrun; simp
          | true =>
            simp only [codegen, reduceIte] at hrun
            rw [push_eq_ok hrun]
            simp [genop1, genop, genop_go]
        | nFalse =>
          cases val with
          | false =>
            simp only [codegen, Bool.false_eq_true, if_false] at hrun
            cases hrun; simp
          | true =>
            simp only [codegen, reduceIte] at hrun
            rw [push_eq_ok hrun]
            simp [genop1, genop, genop_go]
        | nSelf =>
          cases val with
          | false =>
            simp only [codegen, Bool.false_eq_true, if_false] at hrun
            cases hrun; simp
          | true =>
            simp only [codegen, reduceIte] at hrun
            rw [push_eq_ok hrun]
            simp [genop1, genop, genop_go]
        | nStr sv =>
          cases val with
          | false =>
            simp only [codegen, Bool.false_eq_true, if_false] at hrun
            cases hrun; simp
          | true =>
            simp only [codegen, reduceIte] at hrun
            rw [push_eq_ok hrun]
            simp [genop1, genop, genop_go, new_lit]
        | nInt p base =>
          cases val with
          | false =>
            simp only [codegen, Bool.false_eq_true, if_false] at hrun
            cases hrun; simp
          | true =>
            simp only [codegen, reduceIte] at hrun
            cases hri : readint_mrb_int p base false with
            | error e => rw [hri] at hrun; exact absurd hrun (by simp)
            | ok pir =>
              obtain ⟨i, ov⟩ := pir
              rw [hri] at hrun
              cases ov with
              | true =>
                simp only [reduceIte] at hrun
                cases hrf : readint_float p base with
                | error e => rw [hrf] at hrun; exact absurd hrun (by simp)
                | ok fq =>
                  rw [hrf] at hrun
                  rw [push_eq_ok hrun]
                  simp [genop1, genop, genop_go, new_lit]
              | false =>
                simp only [Bool.false_eq_true, if_false] at hrun
                split at hrun <;>
                · rw [push_eq_ok hrun]
                  simp [genop1, genop, genop_go, new_lit]
        | nBegin l =>
          have hokl : spOkList l = true := by simpa [spOkOpt, spOk] using hok
          simp only [codegen] at hrun
          split at hrun
          · rename_i hcond
            rw [push_eq_ok hrun]
            simp [genop1, genop, genop_go, hcond.1]
          · rename_i hcond
            have hthis := ihl l val s s' hokl hrun
            cases val with
            | false => simpa using hthis
            | true =>
              have hemp : l.isEmpty = false := by
                cases h : l.isEmpty with
                | false => rfl
                | true => exact absurd ⟨rfl, h⟩ hcond
              simpa [hemp] using hthis
        | nHash prs =>
          have hokp : spOkPairs prs = true := by simpa [spOkOpt, spOk] using hok
          simp only [codegen] at hrun
          have hthis := ihh prs 0 false val s s' hokp hrun
          cases val with
          | false => simpa using hthis
          | true => simp at hthis ⊢; omega
        | nBreak a =>
          have hoka : spOkOpt a = true := by
            cases a with
            | none => rfl
            | some n2 => simpa [spOkOpt, spOk] using hok
          simp only [codegen] at hrun
          obtain ⟨s1, hlb, hrun⟩ := bind_ok_elim hrun
          have h1 := ihb a s s1 hoka hlb
          cases val with
          | false =>
            simp only [Bool.false_eq_true, if_false] at hrun
            cases hrun; simp [h1]
          | true =>
            simp only [reduceIte] at hrun
            rw [push_eq_ok hrun]
            simp [h1]
    · intro l val s s' hok hrun
      cases l with
      | nil =>
        simp only [codegenList] at hrun
        cases hrun; simp
      | cons c rest =>
        have hokc : spOk c = true ∧ spOkList rest = true := by
          simpa [spOkList, Bool.and_eq_true] using hok
        cases rest with
        | nil =>
          simp only [codegenList] at hrun
          have hthis := iha (some c) val s s' (by simpa [spOkOpt] using hokc.1) hrun
          simpa using hthis
        | cons c2 rest2 =>
          simp only [codegenList] at hrun
          obtain ⟨s1, hc, hrun⟩ := bind_ok_elim hrun
          have h1 := iha (some c) false s s1 (by simpa [spOkOpt] using hokc.1) hc
          have h2 := ihl (c2 :: rest2) val s1 s' hokc.2 hrun
          simp at h1
          cases val with
          | false => simp at h2 ⊢; omega
          | true => simp at h2 ⊢; omega
    · intro prs len update val s s' hok hrun
      cases prs with
      | nil =>
        simp only [codegenHash] at hrun
        cases val with
        | false =>
          simp only [Bool.false_eq_true, if_false] at hrun
          cases hrun; simp
        | true =>
          simp only [reduceIte] at hrun
          have hthis := sp_hash_flush hrun
          simpa using hthis
      | cons kv rest =>
        obtain ⟨kn, vn⟩ := kv
        have hokkv : spOk kn = true ∧ spOk vn = true ∧ spOkPairs rest = true := by
          simpa [spOkPairs, Bool.and_eq_true, and_assoc] using hok
        simp only [codegenHash] at hrun
        obtain ⟨s1, hck, hrun⟩ := bind_ok_elim hrun
        obtain ⟨s2, hcv, hrun⟩ := bind_ok_elim hrun
        have h1 := iha (some kn) val s s1 (by simpa [spOkOpt] using hokkv.1) hck
        have h2 := iha (some vn) val s1 s2 (by simpa [spOkOpt] using hokkv.2.1) hcv
        split at hrun
        · rename_i hflush
          obtain ⟨s3, hf, hrec⟩ := bind_ok_elim hrun
          have h3 := sp_hash_flush hf
          have h4 := ihh rest 0 true val s3 s' hokkv.2.2 hrec
          rw [hflush.1] at h1 h2 h4 ⊢
          cases update with
          | false => simp at h1 h2 h3 h4 ⊢; omega
          | true => simp at h1 h2 h3 h4 ⊢; omega
        · have h3 := ihh rest (len + 1) update val s2 s' hokkv.2.2 hrun
          cases val with
          | false => simp at h1 h2 h3 ⊢; omega
          | true =>
            cases update with
            | false => simp at h1 h2 h3 ⊢; omega
            | true => simp at h1 h2 h3 ⊢; omega
    · intro a s s' hok hrun
      simp only [loop_break] at hrun
      split at hrun
      · obtain ⟨s1, hc, hr⟩ := bind_ok_elim hrun
        have h1 := iha a false s s1 hok hc
        cases hr
        simp at h1
        simp [sp_raise_error, h1]
      · split at hrun
        · rename_i arg
          obtain ⟨s0, hc0, hrun⟩ := bind_ok_elim hrun
          have h0 := iha (some arg) true s s0 hok hc0
          simp at h0
          rw [pure_bind] at hrun
          have hy : (pop_ s0).sp = s.sp := by simp [pop_, h0]
          split at hrun
          · cases hrun
            simp [sp_raise_error, sp_walkBegin, hy]
          · split at hrun
            · cases hrun
              simp only [genop, genop_go]
              split_ifs <;> simp [sp_genop_peep1, sp_walkBegin, hy]
            · cases hrun
              simp [genop1, genop, genop_go, sp_walkBegin, hy]
        · rw [pure_bind] at hrun
          split at hrun
          · cases hrun
            simp [sp_raise_error, sp_walkBegin]
          · split at hrun
            · cases hrun
              simp only [genop, genop_go]
              split_ifs <;> simp [sp_genop_peep1, sp_walkBegin]
            · cases hrun
              simp [genop1, genop, genop_go, sp_walkBegin]

/-- A scope with one `LOOP_NORMAL` frame, so that `NODE_REDO` lowers to
its back-jump rather than to the "unexpected redo" error path. -/
def c1Scope : CScope := { testScope with loop := [{ type := LoopType.LOOP_NORMAL }] }

/-- Claim C1 (counterexample): the claimed `sp` discipline does not
hold for every node kind the dispatcher handles.  `NODE_REDO` lowered
in `VAL` mode inside a `LOOP_NORMAL` frame emits only its back-jump
and returns with `sp` unchanged (here 1), not one higher (2) as the
claim requires: the `NODE_REDO` case never pushes. -/
theorem c1_counterexample :
    (codegen 2 (some Node.nRedo) true c1Scope).map CScope.sp = .ok c1Scope.sp ∧
    (codegen 2 (some Node.nRedo) true c1Scope).map CScope.sp ≠ .ok (c1Scope.sp + 1) := by
  decide

/-- Claim C1 (amended): for every node kind whose dispatcher case
follows the push discipline (`spOk`: literals, `self`, `begin` bodies,
hash literals and `break` — excluding `REDO`, `RETRY`, `SCOPE` and
`POSTEXE`, which leave `sp` unchanged even in `VAL` mode, and
`DEFINED` and `NEGATE`, which lower their operand in `VAL` mode even
when called in `NOVAL` mode), a successful `codegen` in `VAL` mode
returns with `sp` exactly one higher than before the call, and in
`NOVAL` mode with `sp` unchanged. -/
theorem c1_sp_delta (fuel : Nat) (t : Option Node) (val : Bool) (s s' : CScope)
    (hok : spOkOpt t = true) (hrun : codegen fuel t val s = .ok s') :
    s'.sp = s.sp + (if val then 1 else 0) :=
  (codegen_sp_delta fuel).1 t val s s' hok hrun

/-- The concrete scope produced by lowering a `true` literal in `VAL`
mode from `testScope`: one `LOADT` emitted, `sp` stepped from 1 to 2. -/
def c1wState : CScope :=
  { noOptimize := false, sp := 2, nlocals := 1, nregs := 2, lastlabel := 0,
    iseq := [{ op := Op.LOADT, a := 1, b := 0, c := 0, bx := 0 }],
    pool := [], syms := [], rlen := 0, loop := [], ensure_level := 0 }

/-- Witness for C1 at a concrete input: lowering `true` in `VAL` mode
from `testScope` (with `sp = 1`) succeeds and returns `sp = 2`. -/
theorem c1_witness : c1wState.sp = testScope.sp + (if true then 1 else 0) :=
  c1_sp_delta 2 (some Node.nTrue) true testScope c1wState (by decide) (by decide)
